import Mathlib

/-!
Verification of the StellaSora API news subsystem
(`internal/http/handlers/news`, the Mongo-backed variant).

The Go source is shallowly embedded: maps become association lists,
`time.Time` becomes an integer instant, Go `int` arithmetic is modelled as
mathematical integers wrapped to 64-bit two's complement exactly where the
source can overflow, and the network is an oracle function supplied as a
parameter.  JSON row values are modelled at the granularity the handlers
inspect: a `json.Number` is abstracted by the result of its `Int64()`
reading (`some i` when it parses as a 64-bit integer, `none` otherwise);
strings, booleans and null are carried as themselves.  Nested arrays and
objects pass through every handler untouched and are not distinguished.
-/

namespace SSNews

/-- Value stored in a news row (`map[string]interface{}` in the source). -/
inductive JsonVal where
  | num (int64 : Option Int)
  | str (s : String)
  | boolV (b : Bool)
  | nullV
deriving DecidableEq

/-- A news row: `map[string]interface{}` decoded with `decoder.UseNumber()`,
modelled as an association list from field name to value. -/
abbrev Row := List (String × JsonVal)

/-- First-match lookup in an association list (Go map read). -/
def alistGet {β : Type} : List (String × β) → String → Option β
  | [], _ => none
  | (k, v) :: rest, key => if k = key then some v else alistGet rest key

/-- Go map write: replace the first binding of the key, or append a new one. -/
def alistSet {β : Type} : List (String × β) → String → β → List (String × β)
  | [], key, v => [(key, v)]
  | (k, w) :: rest, key, v =>
    if k = key then (key, v) :: rest else (k, w) :: alistSet rest key v

/-- Go map `delete`: drop the first binding of the key. -/
def alistErase {β : Type} : List (String × β) → String → List (String × β)
  | [], _ => []
  | (k, w) :: rest, key =>
    if k = key then rest else (k, w) :: alistErase rest key

/-- A Go map never binds the same key twice; an association list models a
map only when its keys are distinct. -/
def alistWF {β : Type} (l : List (String × β)) : Prop :=
  (l.map Prod.fst).Nodup

theorem alistGet_set_self {β : Type} (l : List (String × β)) (k : String) (v : β) :
    alistGet (alistSet l k v) k = some v := by
  induction l with
  | nil => simp [alistGet, alistSet]
  | cons hd tl ih =>
    obtain ⟨k1, v1⟩ := hd
    by_cases h : k1 = k
    · simp [alistSet, alistGet, h]
    · simp [alistSet, alistGet, h, ih]

theorem alistGet_set_ne {β : Type} (l : List (String × β)) (k k2 : String) (v : β)
    (h : k2 ≠ k) : alistGet (alistSet l k v) k2 = alistGet l k2 := by
  have hne : ¬k = k2 := fun he => h he.symm
  induction l with
  | nil => simp [alistGet, alistSet, hne]
  | cons hd tl ih =>
    obtain ⟨k1, v1⟩ := hd
    by_cases hk : k1 = k
    · subst hk
      simp [alistSet, alistGet, hne]
    · simp [alistSet, alistGet, hk, ih]

theorem alistGet_eq_none_of_not_mem {β : Type} (l : List (String × β)) (k : String)
    (h : k ∉ l.map Prod.fst) : alistGet l k = none := by
  induction l with
  | nil => simp [alistGet]
  | cons hd tl ih =>
    obtain ⟨k1, v1⟩ := hd
    simp only [List.map_cons, List.mem_cons] at h
    push_neg at h
    have hne : ¬k1 = k := fun he => h.1 he.symm
    simp [alistGet, hne, ih h.2]

theorem alistSet_keys_subset {β : Type} (l : List (String × β)) (k : String) (v : β) :
    ∀ x ∈ (alistSet l k v).map Prod.fst, x = k ∨ x ∈ l.map Prod.fst := by
  induction l with
  | nil => simp [alistSet]
  | cons hd tl ih =>
    obtain ⟨k1, v1⟩ := hd
    by_cases hk : k1 = k
    · subst hk
      intro x hx
      simp [alistSet] at hx ⊢
      tauto
    · intro x hx
      simp only [alistSet, if_neg hk, List.map_cons, List.mem_cons] at hx ⊢
      rcases hx with hx | hx
      · tauto
      · rcases ih x hx with hx2 | hx2 <;> tauto

theorem alistWF_set {β : Type} (l : List (String × β)) (k : String) (v : β)
    (h : alistWF l) : alistWF (alistSet l k v) := by
  induction l with
  | nil => simp [alistWF, alistSet]
  | cons hd tl ih =>
    obtain ⟨k1, v1⟩ := hd
    simp only [alistWF, List.map_cons, List.nodup_cons] at h
    by_cases hk : k1 = k
    · subst hk
      simpa [alistWF, alistSet] using h
    · have htl := ih h.2
      simp only [alistWF, alistSet, if_neg hk, List.map_cons, List.nodup_cons]
      refine ⟨?_, htl⟩
      intro hmem
      rcases alistSet_keys_subset tl k v k1 hmem with he | he
      · exact hk he
      · exact h.1 he

theorem alistGet_erase_self {β : Type} (l : List (String × β)) (k : String)
    (h : alistWF l) : alistGet (alistErase l k) k = none := by
  induction l with
  | nil => simp [alistGet, alistErase]
  | cons hd tl ih =>
    obtain ⟨k1, v1⟩ := hd
    simp only [alistWF, List.map_cons, List.nodup_cons] at h
    by_cases hk : k1 = k
    · subst hk
      simp only [alistErase, if_pos rfl]
      exact alistGet_eq_none_of_not_mem tl k1 h.1
    · simp [alistErase, hk, alistGet, ih h.2]

/-- Case-insensitive string equality, modelling `strings.EqualFold` on the
ASCII alphabet exercised by the handlers. -/
def eqFold (s t : String) : Bool :=
  s.data.map Char.toLower == t.data.map Char.toLower

/-- The `type` field of a row as read by `row["type"].(string)`:
the string when the field holds one, the zero value `""` otherwise. -/
def rowTypeOf (row : Row) : String :=
  match alistGet row "type" with
  | some (JsonVal.str s) => s
  | _ => ""

/-- Embedding of `filterRowsByType` (handlers.go): the wildcard expected
types keep every row, otherwise rows are filtered by case-insensitive
equality of their `type` field with the expected type. -/
def filterRowsByType (rows : List Row) (expectedType : String) : List Row :=
  if (expectedType == "") || eqFold expectedType "latest" then rows
  else rows.filter (fun row => eqFold (rowTypeOf row) expectedType)

/-- C5: for a non-wildcard expected type, filtering keeps exactly the rows
whose `type` field equals it case-insensitively, in their original relative
order; for the wildcard `"latest"` or the empty expected type every row
survives unfiltered. -/
theorem filterRowsByType_spec (rows : List Row) (expectedType : String) :
    ((expectedType = "" ∨ eqFold expectedType "latest" = true) →
      filterRowsByType rows expectedType = rows) ∧
    (expectedType ≠ "" → eqFold expectedType "latest" = false →
      filterRowsByType rows expectedType =
        rows.filter (fun row => eqFold (rowTypeOf row) expectedType) ∧
      (filterRowsByType rows expectedType).Sublist rows ∧
      (∀ row ∈ filterRowsByType rows expectedType,
        eqFold (rowTypeOf row) expectedType = true)) := by
  constructor
  · intro h
    rcases h with h | h
    · simp [filterRowsByType, h]
    · simp [filterRowsByType, h]
  · intro h1 h2
    have hif : ((expectedType == "") || eqFold expectedType "latest") = false := by
      simp [h2, h1]
    refine ⟨by simp [filterRowsByType, hif], ?_, ?_⟩
    · simp only [filterRowsByType, hif, Bool.false_eq_true, if_false]
      exact List.filter_sublist rows
    · intro row hrow
      simp only [filterRowsByType, hif, Bool.false_eq_true, if_false,
        List.mem_filter] at hrow
      exact hrow.2

/-- Witness for C5 at concrete data: mixed `type` values filtered by
`"notice"`, and the wildcard category keeping everything. -/
theorem filterRowsByType_spec_witness :
    filterRowsByType
        [[("type", JsonVal.str "notice")], [("type", JsonVal.str "news")],
          [("type", JsonVal.str "NOTICE")]] "notice" =
      [[("type", JsonVal.str "notice")], [("type", JsonVal.str "NOTICE")]] ∧
    filterRowsByType
        [[("type", JsonVal.str "notice")], [("type", JsonVal.str "news")]]
        "latest" =
      [[("type", JsonVal.str "notice")], [("type", JsonVal.str "news")]] := by
  constructor
  · have h := (filterRowsByType_spec
      [[("type", JsonVal.str "notice")], [("type", JsonVal.str "news")],
        [("type", JsonVal.str "NOTICE")]] "notice").2
      (by decide) (by decide)
    rw [h.1]
    decide
  · exact (filterRowsByType_spec
      [[("type", JsonVal.str "notice")], [("type", JsonVal.str "news")]]
      "latest").1 (Or.inr (by decide))

/-- Two to the 63rd, the bound of a signed 64-bit Go `int`. -/
def int64Half : Int := 9223372036854775808

/-- Wrap an unbounded integer to signed 64-bit two's complement, as every
Go `int` arithmetic operation does on overflow. -/
def wrap64 (x : Int) : Int := (x + int64Half) % (2 * int64Half) - int64Half

theorem wrap64_eq_self (x : Int) (h1 : -int64Half ≤ x) (h2 : x < int64Half) :
    wrap64 x = x := by
  have : (x + int64Half) % (2 * int64Half) = x + int64Half := by
    apply Int.emod_eq_of_lt <;> simp [int64Half] at h1 h2 ⊢ <;> omega
  simp [wrap64, this]

/-- Embedding of the element-copy loop in `paginateRows`
(`paged := make(...); for i := start; i < end; i++ ...`): `none` models a
runtime panic (negative slice length or out-of-range index). -/
def copyRange (rows : List Row) (start fin : Int) : Option (List Row) :=
  if fin - start < 0 then none
  else if fin ≤ start then some []
  else if 0 ≤ start ∧ fin ≤ (rows.length : Int) then
    some ((rows.drop start.toNat).take (fin - start).toNat)
  else none

/-- Embedding of `paginateRows` (handlers.go): 1-based page index over the
snapshot rows, with Go `int` arithmetic (64-bit wrap-around) kept explicit.
`none` models a runtime panic of the copy loop. -/
def paginateRows (rows : List Row) (index size : Int) : Option (List Row) :=
  if rows.length = 0 then some []
  else
    let index2 := if index ≤ 0 then 1 else index
    let size2 := if size ≤ 0 then (rows.length : Int) else size
    let start := wrap64 ((index2 - 1) * size2)
    if (rows.length : Int) ≤ start then some []
    else
      let fin0 := wrap64 (start + size2)
      let fin := if (rows.length : Int) < fin0 then (rows.length : Int) else fin0
      copyRange rows start fin

/-- Embedding of the pagination step of `handle`: the response carries the
paginated rows and `Count = len(rows)`. -/
def handlePage (docRows : List Row) (index size : Int) : Option (List Row × Int) :=
  (paginateRows docRows index size).map (fun rs => (rs, (rs.length : Int)))

/-- A sample snapshot row used in concrete scenarios. -/
def sampleRow : Row := [("id", JsonVal.num (some 1))]

theorem paginateRows_eq (rows : List Row) (index size : Int)
    (hi : 0 < index) (hs : 0 < size) (hov : index * size < int64Half) :
    paginateRows rows index size =
      some ((rows.drop ((index - 1) * size).toNat).take size.toNat) := by
  have hps : (index - 1) * size + size = index * size := by ring
  have hp0 : 0 ≤ (index - 1) * size := mul_nonneg (by omega) (by omega)
  have hpb : (index - 1) * size < int64Half := by omega
  have hhalf : (0 : Int) < int64Half := by simp [int64Half]
  have hw1 : wrap64 ((index - 1) * size) = (index - 1) * size :=
    wrap64_eq_self _ (by omega) hpb
  have hw2 : wrap64 ((index - 1) * size + size) = (index - 1) * size + size :=
    wrap64_eq_self _ (by omega) (by omega)
  have hil : ¬index ≤ 0 := by omega
  have hsl : ¬size ≤ 0 := by omega
  by_cases hN : rows.length = 0
  · have hnil : rows = [] := List.length_eq_zero.mp hN
    subst hnil
    simp [paginateRows]
  · simp only [paginateRows, hN, if_false, hil, hsl, ite_false, hw1, hw2]
    by_cases hle : (rows.length : Int) ≤ (index - 1) * size
    · have hdrop : rows.drop ((index - 1) * size).toNat = [] :=
        List.drop_eq_nil_of_le (by omega)
      simp [hle, hdrop]
    · simp only [hle, ite_false, if_false]
      by_cases hfin : (rows.length : Int) < (index - 1) * size + size
      · have hcond1 : ¬((rows.length : Int) - (index - 1) * size < 0) := by omega
        have hcond2 : ¬((rows.length : Int) ≤ (index - 1) * size) := hle
        simp only [copyRange, hfin, ite_true, if_pos hfin, hcond1, hcond2,
          ite_false, if_false, if_neg hcond1, if_neg hcond2]
        rw [if_pos ⟨hp0, le_refl _⟩]
        have hlen : (rows.drop ((index - 1) * size).toNat).length =
            rows.length - ((index - 1) * size).toNat := List.length_drop ..
        rw [List.take_of_length_le (by omega), List.take_of_length_le (by omega)]
      · have hcond1 : ¬((index - 1) * size + size - (index - 1) * size < 0) := by omega
        have hcond2 : ¬((index - 1) * size + size ≤ (index - 1) * size) := by omega
        simp only [copyRange, hfin, ite_false, if_neg hfin, if_neg hcond1,
          if_neg hcond2]
        rw [if_pos ⟨hp0, by omega⟩]
        have hdiff : (index - 1) * size + size - (index - 1) * size = size := by ring
        rw [hdiff]

/-- C1 (amended): for positive `index` and `size` whose product stays below
`2^63` (so the Go `int` arithmetic in `paginateRows` cannot wrap), the page
is the contiguous slice `rows[(index-1)*size : (index-1)*size+size]` of the
snapshot in original order, the response count is
`min size (max 0 (N - (index-1)*size))`, and a start at or past the row
count yields the empty page with count `0` and no error. -/
theorem handle_paginates (rows : List Row) (index size : Int)
    (hi : 0 < index) (hs : 0 < size) (hov : index * size < int64Half) :
    handlePage rows index size =
      some ((rows.drop ((index - 1) * size).toNat).take size.toNat,
        min size (max 0 ((rows.length : Int) - (index - 1) * size))) ∧
    ((rows.length : Int) ≤ (index - 1) * size →
      handlePage rows index size = some ([], 0)) := by
  have hp0 : 0 ≤ (index - 1) * size := mul_nonneg (by omega) (by omega)
  have heq := paginateRows_eq rows index size hi hs hov
  have hlen : ((rows.drop ((index - 1) * size).toNat).take size.toNat).length =
      min size.toNat (rows.length - ((index - 1) * size).toNat) := by
    rw [List.length_take, List.length_drop]
  constructor
  · rw [handlePage, heq]
    simp only [Option.map]
    refine congrArg some (Prod.ext rfl ?_)
    simp only [hlen]
    omega
  · intro hle
    have hdrop : rows.drop ((index - 1) * size).toNat = [] :=
      List.drop_eq_nil_of_le (by omega)
    rw [handlePage, heq, hdrop]
    simp

/-- Witness for C1 (amended) at a concrete snapshot: five rows, page 2 of
size 2 returns rows 2..3 with count 2, and a page past the end is empty. -/
theorem handle_paginates_witness :
    handlePage [[("id", JsonVal.num (some 0))], [("id", JsonVal.num (some 1))],
        [("id", JsonVal.num (some 2))], [("id", JsonVal.num (some 3))],
        [("id", JsonVal.num (some 4))]] 2 2 =
      some ([[("id", JsonVal.num (some 2))], [("id", JsonVal.num (some 3))]], 2) ∧
    handlePage [sampleRow] 2 6 = some ([], 0) := by
  constructor
  · have h := (handle_paginates
      [[("id", JsonVal.num (some 0))], [("id", JsonVal.num (some 1))],
        [("id", JsonVal.num (some 2))], [("id", JsonVal.num (some 3))],
        [("id", JsonVal.num (some 4))]] 2 2
      (by decide) (by decide) (by decide)).1
    rw [h]
    decide
  · exact (handle_paginates [sampleRow] 2 6 (by decide) (by decide)
      (by decide)).2 (by decide)

/-- C1 counterexample: at `index = 2^62 + 1`, `size = 4` the Go expression
`(index-1)*size` wraps to `0`, so a one-row snapshot returns that row with
count `1`, although `(index-1)*size = 2^64 ≥ 1` and the claim demands an
empty page with count `0`. -/
theorem handle_paginates_counterexample :
    handlePage [sampleRow] 4611686018427387905 4 = some ([sampleRow], 1) ∧
    (1 : Int) ≤ (4611686018427387905 - 1) * 4 := by
  constructor
  · decide
  · decide

/-- Thirty minutes in nanoseconds, the duration the sync scheduler aligns
to (`30 * time.Minute`). -/
def halfHourNs : Nat := 1800000000000

/-- Embedding of `nextHalfHour` (handlers.go): truncate the instant to the
preceding half-hour boundary (`time.Truncate` rounds down) and, when the
truncated instant is not strictly after `now`, advance one period.
Instants are nanoseconds since the zero time. -/
def nextHalfHour (now : Nat) : Nat :=
  let start := now / halfHourNs * halfHourNs
  if start > now then start else start + halfHourNs

/-- The instant of the n-th firing of the sync job.  Modelled from the
spec: `startSyncLoop` configures the external gocron scheduler with
`Every(30).Minutes().From(&start)` where `start = nextHalfHour t`, which
the spec describes as a recurring timer firing every 30 minutes from that
start; the gocron library itself is not part of this repository. -/
def syncFireTime (t n : Nat) : Nat := nextHalfHour t + n * halfHourNs

/-- C8 (amended): the first firing instant is the smallest multiple of 30
minutes strictly after the scheduler start `t` (not "at or after": a start
exactly on a boundary first fires a full period later), and subsequent
firings occur every 30 minutes thereafter, each on a boundary. -/
theorem nextHalfHour_spec (t : Nat) :
    nextHalfHour t % halfHourNs = 0 ∧
    t < nextHalfHour t ∧
    (∀ s, s % halfHourNs = 0 → t < s → nextHalfHour t ≤ s) ∧
    (∀ n, syncFireTime t n % halfHourNs = 0 ∧
      syncFireTime t (n + 1) = syncFireTime t n + halfHourNs) := by
  have hpos : 0 < halfHourNs := by decide
  have hdiv : t / halfHourNs * halfHourNs ≤ t := Nat.div_mul_le_self ..
  have hnext : nextHalfHour t = t / halfHourNs * halfHourNs + halfHourNs := by
    rw [nextHalfHour]
    simp [Nat.not_lt.mpr hdiv]
  have h1800 : halfHourNs = 1800000000000 := rfl
  refine ⟨?_, ?_, ?_, ?_⟩
  · rw [hnext, h1800]
    omega
  · rw [hnext, h1800]
    omega
  · intro s hs hts
    rw [hnext]
    rw [h1800] at hs ⊢
    omega
  · intro n
    constructor
    · rw [syncFireTime, hnext, h1800]
      omega
    · rw [syncFireTime, syncFireTime]
      ring

/-- Witness for C8 (amended) at a concrete start 10 minutes past a
boundary: the first firing is the next boundary, 20 minutes later. -/
theorem nextHalfHour_spec_witness :
    nextHalfHour 600000000000 = 1800000000000 ∧
    nextHalfHour 600000000000 % halfHourNs = 0 ∧
    600000000000 < nextHalfHour 600000000000 ∧
    (600000000000 % halfHourNs = 0 → False) := by
  have h := nextHalfHour_spec 600000000000
  refine ⟨by decide, h.1, h.2.1, by decide⟩

/-- C8 counterexample: a scheduler started exactly on a half-hour boundary
(`t = halfHourNs`, itself a multiple of 30 minutes, so the smallest
boundary at or after `t` is `t`) first fires a full period later. -/
theorem nextHalfHour_counterexample :
    halfHourNs % halfHourNs = 0 ∧
    nextHalfHour halfHourNs = 2 * halfHourNs ∧
    nextHalfHour halfHourNs ≠ halfHourNs := by
  refine ⟨by decide, by decide, by decide⟩

/-- The double-quote character. -/
def dquote : Char := Char.ofNat 34

/-- The single-quote character. -/
def squote : Char := Char.ofNat 39

/-- Character class `["']` of `imgSrcPattern`. -/
def isQuote (c : Char) : Bool := c == dquote || c == squote

/-- Case-insensitive literal match at the head of the input, returning the
remaining input (the regexp is compiled with `(?i)`; its literals are
ASCII). -/
def matchLitCI : List Char → List Char → Option (List Char)
  | [], s => some s
  | _ :: _, [] => none
  | p :: ps, c :: cs => if p.toLower = c.toLower then matchLitCI ps cs else none

/-- Match the tail `src=["']([^"']+)["']` of `imgSrcPattern` at the given
position, returning the captured URL characters. -/
def trySrcAt (s : List Char) : Option (List Char) :=
  match matchLitCI [Char.ofNat 115, Char.ofNat 114, Char.ofNat 99, Char.ofNat 61] s with
  | none => none
  | some rest =>
    match rest with
    | [] => none
    | q :: rest2 =>
      if isQuote q then
        let cap := rest2.takeWhile (fun c => !(isQuote c))
        match rest2.drop cap.length with
        | [] => none
        | c2 :: _ => if isQuote c2 && !cap.isEmpty then some cap else none
      else none

/-- Search for the `[^>]+` gap between `<img` and `src=`: the regexp engine
is greedy, so gaps of `k, k-1, ..., 1` characters are tried in that
order. -/
def searchGapDesc (s : List Char) : Nat → Option (List Char)
  | 0 => none
  | k + 1 =>
    match trySrcAt (s.drop (k + 1)) with
    | some cap => some cap
    | none => searchGapDesc s k

/-- Match the whole pattern `(?i)<img[^>]+src=["']([^"']+)["']` starting
exactly at the head of `s`; the gap characters must precede any `>`. -/
def matchImgAt (s : List Char) : Option (List Char) :=
  match matchLitCI [Char.ofNat 60, Char.ofNat 105, Char.ofNat 109, Char.ofNat 103] s with
  | none => none
  | some rest => searchGapDesc rest (rest.takeWhile (fun c => c != Char.ofNat 62)).length

/-- Leftmost match: Go regexp matching scans start positions left to
right and returns the first position where the pattern matches. -/
def findImgSrcAux : List Char → Option (List Char)
  | [] => none
  | c :: cs =>
    match matchImgAt (c :: cs) with
    | some cap => some cap
    | none => findImgSrcAux cs

/-- The first capture group of `imgSrcPattern.FindStringSubmatch`, if the
pattern matches the content at all. -/
def findImgSrc (content : String) : Option String :=
  (findImgSrcAux content.data).map (fun cs => String.mk cs)

/-- Embedding of `extractFirstImage`: the HTML-unescaped captured image
URL, or `""` when the pattern does not match (`len(match) < 2`).  `unesc`
abstracts the Go standard library `html.UnescapeString`, which is outside
this repository. -/
def extractFirstImage (unesc : String → String) (content : String) : String :=
  match findImgSrc content with
  | none => ""
  | some url => unesc url

/-- The decoded upstream article detail (`newsDetail` in the source). -/
structure NewsDetail where
  id : Int
  title : String
  type : String
  typeLabel : String
  publishTime : Int
  thumbnail : String
  content : String
deriving DecidableEq

/-- A thumbnail cache entry (`cacheEntry` in the source); `expires` is an
instant in nanoseconds. -/
structure CacheEntry where
  detail : NewsDetail
  heroThumbnail : String
  expires : Int
deriving DecidableEq

/-- The handler's thumbnail cache, keyed by `region:id`. -/
abbrev Cache := List (String × CacheEntry)

/-- `thumbnailCacheTTL = 10 * time.Minute`, in nanoseconds. -/
def thumbnailCacheTTL : Int := 600000000000

/-- The cache key `fmt.Sprintf("%s:%d", region, id)`. -/
def cacheKey (region : String) (id : Int) : String :=
  region ++ ":" ++ toString id

/-- Embedding of `cachedNews`: look the key up; an entry whose expiry is
strictly before `now` is deleted lazily and reported as a miss. -/
def cachedNews (now : Int) (cache : Cache) (region : String) (id : Int) :
    Option (NewsDetail × String) × Cache :=
  match alistGet cache (cacheKey region id) with
  | none => (none, cache)
  | some entry =>
    if now > entry.expires then (none, alistErase cache (cacheKey region id))
    else (some (entry.detail, entry.heroThumbnail), cache)

/-- Embedding of `storeNews`: an empty hero falls back to the detail's own
thumbnail, and the entry expires `thumbnailCacheTTL` after `now`. -/
def storeNews (now : Int) (cache : Cache) (region : String) (id : Int)
    (detail : NewsDetail) (hero : String) : Cache :=
  let hero2 := if hero = "" then detail.thumbnail else hero
  alistSet cache (cacheKey region id) ⟨detail, hero2, now + thumbnailCacheTTL⟩

/-- The static region catalogue `regionBaseURLs`. -/
def regionBaseURLs : List (String × String) :=
  [("global", "https://stellasora.global"), ("jp", "https://stellasora.jp"),
    ("tw", "https://stellasora.stargazer-games.com"),
    ("cn", "https://stellasora.yostar.cn")]

/-- The hero thumbnail derived from a fetched detail in `fetchNewsDetail`:
the extracted first image when nonempty, else the detail's own
thumbnail. -/
def resolveHero (unesc : String → String) (d : NewsDetail) : String :=
  let img := extractFirstImage unesc d.content
  if img = "" then d.thumbnail else img

/-- Embedding of `fetchNewsDetail`: cache-first; on a miss, build the
detail URL for the region, fetch the detail (`detailOf` is the upstream
oracle; `none` covers transport, non-200 and decode failures), derive the
hero thumbnail, store the entry, and return it. -/
def fetchNewsDetail (unesc : String → String)
    (detailOf : String → Int → Option NewsDetail) (now : Int) (cache : Cache)
    (region : String) (id : Int) : Except String (NewsDetail × String) × Cache :=
  match cachedNews now cache region id with
  | (some (d, hero), c) => (Except.ok (d, hero), c)
  | (none, c) =>
    match alistGet regionBaseURLs region with
    | none => (Except.error "unknown region", c)
    | some _ =>
      match detailOf region id with
      | none => (Except.error "upstream error", c)
      | some d =>
        let hero := resolveHero unesc d
        (Except.ok (d, hero), storeNews now c region id d hero)

/-- The `(thumbnail, err)` pair one enrichment goroutine reads from
`fetchNewsDetail`, abstracted per article id: `none` when the fetch
errored, otherwise the resolved hero thumbnail. -/
def resolveViaDetail (unesc : String → String)
    (detailOf : String → Int → Option NewsDetail) (now : Int) (cache : Cache)
    (region : String) (id : Int) : Option String :=
  match (fetchNewsDetail unesc detailOf now cache region id).1 with
  | Except.ok (_, hero) => some hero
  | Except.error _ => none

/-- Embedding of one `enrichThumbnails` goroutine body: read the row id as
a `json.Number` `Int64`, resolve the thumbnail, and overwrite the row's
`thumbnail` field unless the fetch failed or resolved empty.  The second
component is the goroutine's returned error, following each `return nil`
of the source. -/
def enrichGoroutine (fetchOne : Int → Option String) (row : Row) :
    Row × Option String :=
  match alistGet row "id" with
  | some (JsonVal.num idVal) =>
    match idVal with
    | none => (row, none)
    | some id =>
      match fetchOne id with
      | none => (row, none)
      | some thumbnail =>
        if thumbnail = "" then (row, none)
        else (alistSet row "thumbnail" (JsonVal.str thumbnail), none)
  | _ => (row, none)

/-- Embedding of `enrichThumbnails`: each goroutine writes its result back
only to its own row, so the final rows are the per-row transforms in
order; `errgroup.Wait` yields the first non-nil goroutine error. -/
def enrichThumbnails (fetchOne : Int → Option String) (rows : List Row) :
    List Row × Option String :=
  if rows.length = 0 then (rows, none)
  else
    let results := rows.map (enrichGoroutine fetchOne)
    (results.map Prod.fst, (results.filterMap Prod.snd).head?)

theorem enrichGoroutine_err (fetchOne : Int → Option String) (row : Row) :
    (enrichGoroutine fetchOne row).2 = none := by
  cases h : alistGet row "id" with
  | none => simp [enrichGoroutine, h]
  | some v =>
    cases v with
    | num idVal =>
      cases idVal with
      | none => simp [enrichGoroutine, h]
      | some id =>
        cases hf : fetchOne id with
        | none => simp [enrichGoroutine, h, hf]
        | some t =>
          by_cases ht : t = "" <;> simp [enrichGoroutine, h, hf, ht]
    | str s => simp [enrichGoroutine, h]
    | boolV b => simp [enrichGoroutine, h]
    | nullV => simp [enrichGoroutine, h]

theorem enrichGoroutine_fst_of_fail (fetchOne : Int → Option String) (row : Row)
    (h : ∀ id, alistGet row "id" = some (JsonVal.num (some id)) →
      fetchOne id = none ∨ fetchOne id = some "") :
    (enrichGoroutine fetchOne row).1 = row := by
  cases hid : alistGet row "id" with
  | none => simp [enrichGoroutine, hid]
  | some v =>
    cases v with
    | num idVal =>
      cases idVal with
      | none => simp [enrichGoroutine, hid]
      | some id =>
        rcases h id hid with hf | hf <;> simp [enrichGoroutine, hid, hf]
    | str s => simp [enrichGoroutine, hid]
    | boolV b => simp [enrichGoroutine, hid]
    | nullV => simp [enrichGoroutine, hid]

theorem enrichGoroutine_fst_of_ok (fetchOne : Int → Option String) (row : Row)
    (id : Int) (t : String)
    (hid : alistGet row "id" = some (JsonVal.num (some id)))
    (hf : fetchOne id = some t) (ht : t ≠ "") :
    (enrichGoroutine fetchOne row).1 = alistSet row "thumbnail" (JsonVal.str t) := by
  simp [enrichGoroutine, hid, hf, ht]

theorem enrichThumbnails_fst (fetchOne : Int → Option String) (rows : List Row) :
    (enrichThumbnails fetchOne rows).1 =
      rows.map (fun row => (enrichGoroutine fetchOne row).1) := by
  by_cases h : rows.length = 0
  · have hnil : rows = [] := List.length_eq_zero.mp h
    subst hnil
    simp [enrichThumbnails]
  · simp [enrichThumbnails, h, List.map_map, Function.comp]

/-- C7: enrichment never surfaces an error — every goroutine returns nil,
so the batch result is nil whatever the per-row fetches do; a failed or
empty-resolved row keeps its prior contents while successfully resolved
rows are still enriched. -/
theorem enrichThumbnails_isolates (fetchOne : Int → Option String)
    (rows : List Row) :
    (enrichThumbnails fetchOne rows).2 = none ∧
    (enrichThumbnails fetchOne rows).1.length = rows.length ∧
    (∀ (i : Nat) row, rows[i]? = some row →
      (∀ id, alistGet row "id" = some (JsonVal.num (some id)) →
        fetchOne id = none ∨ fetchOne id = some "") →
      (enrichThumbnails fetchOne rows).1[i]? = some row) ∧
    (∀ (i : Nat) row id t, rows[i]? = some row →
      alistGet row "id" = some (JsonVal.num (some id)) →
      fetchOne id = some t → t ≠ "" →
      (enrichThumbnails fetchOne rows).1[i]? =
        some (alistSet row "thumbnail" (JsonVal.str t))) := by
  refine ⟨?_, ?_, ?_, ?_⟩
  · by_cases h : rows.length = 0
    · simp [enrichThumbnails, h]
    · simp only [enrichThumbnails, h, if_neg h]
      have hnil : (rows.map (enrichGoroutine fetchOne)).filterMap Prod.snd = [] := by
        rw [List.filterMap_map]
        rw [List.filterMap_eq_nil_iff]
        intro row hrow
        exact enrichGoroutine_err fetchOne row
      simp [hnil]
  · rw [enrichThumbnails_fst]
    simp
  · intro i row hrow hfail
    rw [enrichThumbnails_fst, List.getElem?_map, hrow, Option.map_some']
    rw [enrichGoroutine_fst_of_fail fetchOne row hfail]
  · intro i row id t hrow hid hf ht
    rw [enrichThumbnails_fst, List.getElem?_map, hrow, Option.map_some']
    rw [enrichGoroutine_fst_of_ok fetchOne row id t hid hf ht]

/-- A concrete fetch oracle under which article 1 fails, article 2
resolves empty and every other article resolves to `"t"`. -/
def oracle3 (id : Int) : Option String :=
  if id = 1 then none else if id = 2 then some "" else some "t"

/-- A concrete three-row batch whose ids exercise each oracle outcome. -/
def batch3 : List Row :=
  [[("id", JsonVal.num (some 1))], [("id", JsonVal.num (some 2))],
    [("id", JsonVal.num (some 3))]]

/-- Witness for C7 at a concrete batch: row 0 fails its fetch, row 1
resolves empty, row 2 resolves — the batch returns no error, failing rows
are untouched and the resolved row is enriched. -/
theorem enrichThumbnails_isolates_witness :
    (enrichThumbnails oracle3 batch3).2 = none ∧
    (enrichThumbnails oracle3 batch3).1[0]? = some [("id", JsonVal.num (some 1))] ∧
    (enrichThumbnails oracle3 batch3).1[1]? = some [("id", JsonVal.num (some 2))] ∧
    (enrichThumbnails oracle3 batch3).1[2]? =
      some [("id", JsonVal.num (some 3)), ("thumbnail", JsonVal.str "t")] := by
  have h := enrichThumbnails_isolates oracle3 batch3
  refine ⟨h.1, ?_, ?_, ?_⟩
  · exact h.2.2.1 0 [("id", JsonVal.num (some 1))] (by decide)
      (by
        intro id hid
        simp [alistGet] at hid
        subst hid
        left
        decide)
  · exact h.2.2.1 1 [("id", JsonVal.num (some 2))] (by decide)
      (by
        intro id hid
        simp [alistGet] at hid
        subst hid
        right
        decide)
  · have h2 := h.2.2.2 2 [("id", JsonVal.num (some 3))] 3 "t" (by decide)
      (by decide) (by decide) (by decide)
    rw [h2]
    decide

/-- C10: a row whose `id` field is absent, not a JSON number, or not
readable as an integer is returned untouched, its enrichment is
independent of the fetch oracle (no detail fetch can influence it), and
every other row of the batch is still processed normally. -/
theorem enrich_skips_unreadable_id (fetchOne fetchOne2 : Int → Option String)
    (rows : List Row) (i : Nat) (row : Row)
    (hrow : rows[i]? = some row)
    (hid : ∀ id, alistGet row "id" ≠ some (JsonVal.num (some id))) :
    (enrichThumbnails fetchOne rows).1[i]? = some row ∧
    enrichGoroutine fetchOne row = enrichGoroutine fetchOne2 row ∧
    (∀ (j : Nat) row2, rows[j]? = some row2 →
      (enrichThumbnails fetchOne rows).1[j]? =
        some (enrichGoroutine fetchOne row2).1) := by
  have hfix : ∀ g : Int → Option String, enrichGoroutine g row = (row, none) := by
    intro g
    cases h : alistGet row "id" with
    | none => simp [enrichGoroutine, h]
    | some v =>
      cases v with
      | num idVal =>
        cases idVal with
        | none => simp [enrichGoroutine, h]
        | some id => exact absurd h (hid id)
      | str s => simp [enrichGoroutine, h]
      | boolV b => simp [enrichGoroutine, h]
      | nullV => simp [enrichGoroutine, h]
  refine ⟨?_, by rw [hfix, hfix], ?_⟩
  · rw [enrichThumbnails_fst, List.getElem?_map, hrow, Option.map_some', hfix]
  · intro j row2 hrow2
    rw [enrichThumbnails_fst, List.getElem?_map, hrow2, Option.map_some']

/-- Witness for C10 at a concrete batch: a row with a string `id` and a
row with no `id` pass through unchanged while a numeric row is enriched;
the oracle-independence is checked against a second oracle. -/
theorem enrich_skips_unreadable_id_witness :
    (enrichThumbnails (fun _ => some "t")
        [[("id", JsonVal.str "x"), ("thumbnail", JsonVal.str "old")],
          [("id", JsonVal.num (some 3))]]).1[0]? =
      some [("id", JsonVal.str "x"), ("thumbnail", JsonVal.str "old")] ∧
    enrichGoroutine (fun _ => some "t")
        [("id", JsonVal.str "x"), ("thumbnail", JsonVal.str "old")] =
      enrichGoroutine (fun _ => none)
        [("id", JsonVal.str "x"), ("thumbnail", JsonVal.str "old")] ∧
    (enrichThumbnails (fun _ => some "t")
        [[("id", JsonVal.str "x"), ("thumbnail", JsonVal.str "old")],
          [("id", JsonVal.num (some 3))]]).1[1]? =
      some [("id", JsonVal.num (some 3)), ("thumbnail", JsonVal.str "t")] := by
  have h := enrich_skips_unreadable_id (fun _ => some "t") (fun _ => none)
    [[("id", JsonVal.str "x"), ("thumbnail", JsonVal.str "old")],
      [("id", JsonVal.num (some 3))]] 0
    [("id", JsonVal.str "x"), ("thumbnail", JsonVal.str "old")]
    (by decide) (by intro id; simp [alistGet])
  refine ⟨h.1, h.2.1, ?_⟩
  have h2 := h.2.2 1 [("id", JsonVal.num (some 3))] (by decide)
  rw [h2]
  decide

/-- A detail response whose content holds no image tag but whose own
thumbnail field is nonempty. -/
def detailNoImg : NewsDetail :=
  ⟨7, "title", "notice", "Notice", 0, "https://cdn/new.jpg", "plain text content"⟩

/-- A row that already carries a thumbnail before enrichment. -/
def rowOld : Row :=
  [("id", JsonVal.num (some 7)), ("thumbnail", JsonVal.str "https://cdn/old.jpg")]

/-- C3 counterexample: on a cache miss whose detail content holds no
`<img>` tag, enrichment overwrites the row's pre-existing thumbnail with
the detail's own thumbnail field instead of preserving it. -/
theorem enrich_no_img_counterexample :
    findImgSrc detailNoImg.content = none ∧
    alistGet rowOld "thumbnail" = some (JsonVal.str "https://cdn/old.jpg") ∧
    (enrichGoroutine
        (resolveViaDetail (fun s => s) (fun _ _ => some detailNoImg) 0 [] "global")
        rowOld).1 =
      [("id", JsonVal.num (some 7)), ("thumbnail", JsonVal.str "https://cdn/new.jpg")] := by
  refine ⟨by decide, by decide, by decide⟩

/-- C3 (amended): for a row enriched on a cache miss, a detail content
with an `<img src=...>` occurrence sets the row's thumbnail to the
(HTML-unescaped) captured URL of the leftmost match, overriding any
pre-existing value, provided the unescaped URL is nonempty; with no
`<img>` occurrence the hero falls back to the detail's own thumbnail
field, which likewise overwrites the row's thumbnail when nonempty — the
row's original thumbnail survives only when the detail's thumbnail is
empty too. -/
theorem enrich_thumbnail_precedence (unesc : String → String)
    (detailOf : String → Int → Option NewsDetail) (now : Int) (cache : Cache)
    (region : String) (row : Row) (id : Int) (d : NewsDetail)
    (hid : alistGet row "id" = some (JsonVal.num (some id)))
    (hmiss : alistGet cache (cacheKey region id) = none)
    (hregion : (alistGet regionBaseURLs region).isSome = true)
    (hdetail : detailOf region id = some d) :
    (∀ url, findImgSrc d.content = some url → unesc url ≠ "" →
      (enrichGoroutine (resolveViaDetail unesc detailOf now cache region) row).1 =
        alistSet row "thumbnail" (JsonVal.str (unesc url))) ∧
    (findImgSrc d.content = none →
      (d.thumbnail ≠ "" →
        (enrichGoroutine (resolveViaDetail unesc detailOf now cache region) row).1 =
          alistSet row "thumbnail" (JsonVal.str d.thumbnail)) ∧
      (d.thumbnail = "" →
        (enrichGoroutine (resolveViaDetail unesc detailOf now cache region) row).1 =
          row)) := by
  have hfetch : resolveViaDetail unesc detailOf now cache region id =
      some (resolveHero unesc d) := by
    rcases hb : alistGet regionBaseURLs region with _ | b
    · rw [hb] at hregion
      simp at hregion
    · simp [resolveViaDetail, fetchNewsDetail, cachedNews, hmiss, hb, hdetail]
  constructor
  · intro url hurl hne
    have hhero : resolveHero unesc d = unesc url := by
      simp [resolveHero, extractFirstImage, hurl, hne]
    rw [hhero] at hfetch
    exact enrichGoroutine_fst_of_ok _ row id (unesc url) hid hfetch hne
  · intro hnone
    have hhero : resolveHero unesc d = d.thumbnail := by
      simp [resolveHero, extractFirstImage, hnone]
    rw [hhero] at hfetch
    constructor
    · intro hne
      exact enrichGoroutine_fst_of_ok _ row id d.thumbnail hid hfetch hne
    · intro hempty
      apply enrichGoroutine_fst_of_fail
      intro id2 hid2
      rw [hid] at hid2
      have : id2 = id := by
        simpa using hid2.symm
      subst this
      right
      rw [hfetch, hempty]

/-- A detail response whose content carries an image tag. -/
def detailWithImg : NewsDetail :=
  ⟨8, "title", "news", "News", 0, "https://cdn/fallback.jpg",
    "<p>hi</p><img class=\"hero\" src=\"https://cdn/hero.jpg\"> tail"⟩

/-- Witness for C3 (amended): a concrete cache-miss enrichment where the
content carries an image tag, whose URL overrides the row's old
thumbnail. -/
theorem enrich_thumbnail_precedence_witness :
    findImgSrc detailWithImg.content = some "https://cdn/hero.jpg" ∧
    (enrichGoroutine
        (resolveViaDetail (fun s => s) (fun _ _ => some detailWithImg) 0 [] "global")
        [("id", JsonVal.num (some 8)), ("thumbnail", JsonVal.str "https://cdn/old.jpg")]).1 =
      [("id", JsonVal.num (some 8)), ("thumbnail", JsonVal.str "https://cdn/hero.jpg")] := by
  refine ⟨by decide, ?_⟩
  have h := (enrich_thumbnail_precedence (fun s => s)
    (fun _ _ => some detailWithImg) 0 [] "global"
    [("id", JsonVal.num (some 8)), ("thumbnail", JsonVal.str "https://cdn/old.jpg")]
    8 detailWithImg (by decide) (by decide) (by decide) (by decide)).1
    "https://cdn/hero.jpg" (by decide) (by decide)
  rw [h]
  decide

/-- C6: an entry stored at `tWrite` under `region:id` is a cache hit for
every read at or before `tWrite + 10min` (returning the stored detail and
hero, cache untouched), while a read strictly after `tWrite + 10min`
misses, lazily deletes the entry, and a subsequent `fetchNewsDetail` on
that missing state performs a fresh upstream fetch. -/
theorem cache_ttl (unesc : String → String) (cache : Cache) (region : String)
    (id : Int) (detail : NewsDetail) (hero : String) (tWrite tRead : Int)
    (hwf : alistWF cache) :
    (tRead ≤ tWrite + thumbnailCacheTTL →
      cachedNews tRead (storeNews tWrite cache region id detail hero) region id =
        (some (detail, if hero = "" then detail.thumbnail else hero),
          storeNews tWrite cache region id detail hero)) ∧
    (tRead > tWrite + thumbnailCacheTTL →
      (cachedNews tRead (storeNews tWrite cache region id detail hero) region id).1 =
        none ∧
      alistGet
        (cachedNews tRead (storeNews tWrite cache region id detail hero) region id).2
        (cacheKey region id) = none ∧
      (∀ detailOf d, detailOf region id = some d →
        (alistGet regionBaseURLs region).isSome = true →
        fetchNewsDetail unesc detailOf tRead
            (storeNews tWrite cache region id detail hero) region id =
          (Except.ok (d, resolveHero unesc d),
            storeNews tRead
              (alistErase (storeNews tWrite cache region id detail hero)
                (cacheKey region id))
              region id d (resolveHero unesc d)))) := by
  have hget : alistGet (storeNews tWrite cache region id detail hero)
      (cacheKey region id) =
      some ⟨detail, if hero = "" then detail.thumbnail else hero,
        tWrite + thumbnailCacheTTL⟩ := by
    rw [storeNews]
    exact alistGet_set_self ..
  have hwf2 : alistWF (storeNews tWrite cache region id detail hero) :=
    alistWF_set _ _ _ hwf
  constructor
  · intro hle
    have hnot : ¬tRead > tWrite + thumbnailCacheTTL := by omega
    simp [cachedNews, hget, hnot]
  · intro hgt
    have hmiss : cachedNews tRead (storeNews tWrite cache region id detail hero)
        region id =
        (none, alistErase (storeNews tWrite cache region id detail hero)
          (cacheKey region id)) := by
      simp [cachedNews, hget, hgt]
    refine ⟨by rw [hmiss], ?_, ?_⟩
    · rw [hmiss]
      exact alistGet_erase_self _ _ hwf2
    · intro detailOf d hdetail hregion
      rcases hb : alistGet regionBaseURLs region with _ | b
      · rw [hb] at hregion
        simp at hregion
      · rw [fetchNewsDetail, hmiss]
        simp [hb, hdetail]

/-- Witness for C6 at concrete instants: an entry written at `t = 0` hits
at `9m59s` and misses (and is evicted, and refetches) at `10m01s`. -/
theorem cache_ttl_witness :
    cachedNews 599000000000
        (storeNews 0 [] "global" 1 detailNoImg "https://cdn/h.jpg") "global" 1 =
      (some (detailNoImg, "https://cdn/h.jpg"),
        storeNews 0 [] "global" 1 detailNoImg "https://cdn/h.jpg") ∧
    (cachedNews 601000000000
        (storeNews 0 [] "global" 1 detailNoImg "https://cdn/h.jpg") "global" 1).1 =
      none ∧
    fetchNewsDetail (fun s => s) (fun _ _ => some detailNoImg) 601000000000
        (storeNews 0 [] "global" 1 detailNoImg "https://cdn/h.jpg") "global" 1 =
      (Except.ok (detailNoImg, resolveHero (fun s => s) detailNoImg),
        storeNews 601000000000
          (alistErase (storeNews 0 [] "global" 1 detailNoImg "https://cdn/h.jpg")
            (cacheKey "global" 1))
          "global" 1 detailNoImg (resolveHero (fun s => s) detailNoImg)) := by
  have h := cache_ttl (fun s => s) [] "global" 1 detailNoImg "https://cdn/h.jpg"
    0 599000000000 (by simp [alistWF])
  have h2 := cache_ttl (fun s => s) [] "global" 1 detailNoImg "https://cdn/h.jpg"
    0 601000000000 (by simp [alistWF])
  refine ⟨?_, (h2.2 (by decide)).1, ?_⟩
  · have hhit := h.1 (by decide)
    rw [hhit]
    decide
  · exact (h2.2 (by decide)).2.2 (fun _ _ => some detailNoImg) detailNoImg rfl
      (by decide)

/-- The fixed sync page size `newsSyncPageSize = 30`. -/
def newsSyncPageSize : Nat := 30

/-- Embedding of `fetchNewsPage` for one upstream page: `rawPage` holds
the upstream's decoded row list for the page (`Except.error` covers URL
build, transport, non-200 and decode failures).  Returns the post-filter,
enriched rows together with the raw upstream row count; the enrichment
error is logged, never propagated. -/
def fetchNewsPage (fetchOne : Int → Option String) (newsType : String)
    (rawPage : Except String (List Row)) : Except String (List Row × Nat) :=
  match rawPage with
  | Except.error e => Except.error e
  | Except.ok raw =>
    let upstreamCount := raw.length
    let filtered := filterRowsByType raw newsType
    Except.ok ((enrichThumbnails fetchOne filtered).1, upstreamCount)

/-- Embedding of `fetchCategoryRows`: pages are fetched from page 1
onwards and their post-filter rows accumulated until a page's raw
upstream count falls below the page size.  The upstream is modelled as
the list of its successive page results; an exhausted list stands for the
upstream's empty page beyond its data (raw count 0 < 30), which stops the
loop contributing no rows. -/
def fetchCategoryRows (fetchOne : Int → Option String) (newsType : String) :
    List (Except String (List Row)) → Except String (List Row)
  | [] => Except.ok []
  | p :: rest =>
    match fetchNewsPage fetchOne newsType p with
    | Except.error e => Except.error e
    | Except.ok (rows, upstreamCount) =>
      if upstreamCount < newsSyncPageSize then Except.ok rows
      else
        match fetchCategoryRows fetchOne newsType rest with
        | Except.error e => Except.error e
        | Except.ok more => Except.ok (rows ++ more)

/-- `convertJSONValue` turns decoder values into BSON-storable leaves; on
this value model (numbers already abstracted by their `Int64` reading)
each leaf maps to itself. -/
def convertJSONValue : JsonVal → JsonVal
  | JsonVal.num n => JsonVal.num n
  | JsonVal.str s => JsonVal.str s
  | JsonVal.boolV b => JsonVal.boolV b
  | JsonVal.nullV => JsonVal.nullV

/-- Embedding of `convertMap`: convert every field of a row. -/
def convertMap (row : Row) : Row :=
  row.map (fun kv => (kv.1, convertJSONValue kv.2))

/-- Embedding of `normalizeRows`. -/
def normalizeRows (rows : List Row) : List Row :=
  rows.map convertMap

/-- A stored per-category snapshot document (`newsCategoryDocument`). -/
structure NewsCategoryDocument where
  category : String
  rows : List Row
  updatedAt : Int
deriving DecidableEq

/-- The persistent `news_articles` collection, keyed by the documents'
`category` field `region:category`. -/
abbrev Store := List (String × NewsCategoryDocument)

/-- Embedding of `refreshCategory`: fetch all pages for the pair; on any
failure return the error with the store untouched, otherwise upsert the
full normalized row-set and a fresh `updatedAt` under `region:category`
in a single `UpdateOne` write. -/
def refreshCategory (fetchOne : Int → Option String)
    (upstream : String → String → List (Except String (List Row))) (now : Int)
    (category region newsType : String) (store : Store) : Store × Option String :=
  match fetchCategoryRows fetchOne newsType (upstream region newsType) with
  | Except.error e => (store, some e)
  | Except.ok rows =>
    let normalized := normalizeRows rows
    let dbCategory := region ++ ":" ++ category
    (alistSet store dbCategory ⟨dbCategory, normalized, now⟩, none)

/-- The known region codes, in catalogue order (Go map iteration order is
unspecified; no claim depends on the order). -/
def regionList : List String := regionBaseURLs.map Prod.fst

/-- The static `categoryTypeMap`: public category name to upstream
expected type. -/
def categoryTypeMap : List (String × String) :=
  [("updates", "latest"), ("notices", "notice"), ("news", "news"),
    ("events", "activity")]

/-- Every (region, category, newsType) combination one sync cycle
visits. -/
def allPairs : List (String × String × String) :=
  (regionList.map (fun r => categoryTypeMap.map (fun ct => (r, ct.1, ct.2)))).flatten

/-- The error `refreshAll` records for one pair, already wrapped as
`fmt.Errorf("%s (%s): %w", category, region, err)`; `none` when the
pair's refresh succeeds. -/
def errOfPair (fetchOne : Int → Option String)
    (upstream : String → String → List (Except String (List Row)))
    (p : String × String × String) : Option String :=
  match fetchCategoryRows fetchOne p.2.2 (upstream p.1 p.2.2) with
  | Except.error e => some (p.2.1 ++ " (" ++ p.1 ++ "): " ++ e)
  | Except.ok _ => none

/-- Embedding of `refreshAll`: refresh every region and category pair in
turn, recording each pair's error and proceeding; the second component
collects the arguments of the final `errors.Join` (empty list = nil
aggregate). -/
def refreshAll (fetchOne : Int → Option String)
    (upstream : String → String → List (Except String (List Row))) (now : Int)
    (store : Store) : Store × List String :=
  allPairs.foldl
    (fun acc p =>
      match refreshCategory fetchOne upstream now p.2.1 p.1 p.2.2 acc.1 with
      | (st, none) => (st, acc.2)
      | (st, some e) => (st, acc.2 ++ [p.2.1 ++ " (" ++ p.1 ++ "): " ++ e]))
    (store, [])

/-- The rows one successfully fetched page contributes to the snapshot. -/
def pageRowsOf (fetchOne : Int → Option String) (newsType : String)
    (p : Except String (List Row)) : List Row :=
  match p with
  | Except.error _ => []
  | Except.ok raw => (enrichThumbnails fetchOne (filterRowsByType raw newsType)).1

/-- C2: paging accumulates each page's post-filter (and enriched) rows in
page order and stops exactly after the first page whose raw upstream row
count is strictly below the page size: pages past that one are never
consulted, and the result is the concatenation of the contributions of
the consulted pages. -/
theorem fetchCategoryRows_stops (fetchOne : Int → Option String)
    (newsType : String) (front : List (Except String (List Row)))
    (shortRaw : List Row) (rest : List (Except String (List Row)))
    (hfront : ∀ p ∈ front, ∃ raw, p = Except.ok raw ∧
      newsSyncPageSize ≤ raw.length)
    (hshort : shortRaw.length < newsSyncPageSize) :
    fetchCategoryRows fetchOne newsType (front ++ Except.ok shortRaw :: rest) =
      Except.ok ((front.map (pageRowsOf fetchOne newsType)).flatten ++
        pageRowsOf fetchOne newsType (Except.ok shortRaw)) ∧
    fetchCategoryRows fetchOne newsType (front ++ Except.ok shortRaw :: rest) =
      fetchCategoryRows fetchOne newsType (front ++ [Except.ok shortRaw]) := by
  induction front with
  | nil =>
    have hstop : fetchCategoryRows fetchOne newsType (Except.ok shortRaw :: rest) =
        Except.ok (pageRowsOf fetchOne newsType (Except.ok shortRaw)) := by
      simp [fetchCategoryRows, fetchNewsPage, hshort, pageRowsOf]
    have hstop2 : fetchCategoryRows fetchOne newsType [Except.ok shortRaw] =
        Except.ok (pageRowsOf fetchOne newsType (Except.ok shortRaw)) := by
      simp [fetchCategoryRows, fetchNewsPage, hshort, pageRowsOf]
    simp [hstop, hstop2]
  | cons p front ih =>
    obtain ⟨raw, hp, hlong⟩ := hfront p (List.mem_cons_self ..)
    subst hp
    have ih2 := ih (fun q hq => hfront q (List.mem_cons_of_mem _ hq))
    have hnot : ¬raw.length < newsSyncPageSize := by omega
    have h3 := ih2.2.symm.trans ih2.1
    constructor
    · simp only [List.cons_append, fetchCategoryRows, fetchNewsPage,
        List.append_eq, hnot, if_neg hnot, ih2.1]
      simp [pageRowsOf]
    · simp only [List.cons_append, fetchCategoryRows, fetchNewsPage,
        List.append_eq, hnot, if_neg hnot, ih2.1, h3]

/-- A full upstream page of 30 distinct rows. -/
def page30 : List Row :=
  (List.range 30).map (fun n => [("id", JsonVal.num (some (n : Int)))])

/-- A final upstream page of 12 distinct rows. -/
def page12 : List Row :=
  (List.range 12).map (fun n => [("id", JsonVal.num (some ((30 + n : Nat) : Int)))])

/-- Witness for C2: a first page of 30 rows followed by a page of 12 rows
stops paging after the second page — a third page is never consulted —
and accumulates all 42 rows. -/
theorem fetchCategoryRows_stops_witness :
    fetchCategoryRows (fun _ => none) "latest"
        ([Except.ok page30] ++ Except.ok page12 :: [Except.error "never fetched"]) =
      fetchCategoryRows (fun _ => none) "latest"
        ([Except.ok page30] ++ [Except.ok page12]) ∧
    fetchCategoryRows (fun _ => none) "latest"
        ([Except.ok page30] ++ Except.ok page12 :: [Except.error "never fetched"]) =
      Except.ok (page30 ++ page12) ∧
    (page30 ++ page12).length = 42 := by
  have h := fetchCategoryRows_stops (fun _ => none) "latest" [Except.ok page30]
    page12 [Except.error "never fetched"]
    (by
      intro p hp
      simp only [List.mem_singleton] at hp
      subst hp
      exact ⟨page30, rfl, by decide⟩)
    (by decide)
  refine ⟨h.2, ?_, by decide⟩
  rw [h.1]
  rfl

/-- C4: a refresh of one (region, category) pair either fails with no
write at all — every key of the store, the pair's own included, reads
back unchanged — or replaces the pair's whole document in one upsert:
the key then holds exactly the new row-set stamped `updatedAt = now`,
and every other key is untouched. -/
theorem refreshCategory_atomic (fetchOne : Int → Option String)
    (upstream : String → String → List (Except String (List Row))) (now : Int)
    (category region newsType : String) (store : Store) :
    (∀ e, fetchCategoryRows fetchOne newsType (upstream region newsType) =
        Except.error e →
      refreshCategory fetchOne upstream now category region newsType store =
        (store, some e)) ∧
    (∀ rows, fetchCategoryRows fetchOne newsType (upstream region newsType) =
        Except.ok rows →
      refreshCategory fetchOne upstream now category region newsType store =
        (alistSet store (region ++ ":" ++ category)
          ⟨region ++ ":" ++ category, normalizeRows rows, now⟩, none) ∧
      alistGet
          (refreshCategory fetchOne upstream now category region newsType store).1
          (region ++ ":" ++ category) =
        some ⟨region ++ ":" ++ category, normalizeRows rows, now⟩ ∧
      (∀ k, k ≠ region ++ ":" ++ category →
        alistGet
            (refreshCategory fetchOne upstream now category region newsType store).1
            k =
          alistGet store k)) := by
  constructor
  · intro e he
    simp [refreshCategory, he]
  · intro rows hrows
    have heq : refreshCategory fetchOne upstream now category region newsType store =
        (alistSet store (region ++ ":" ++ category)
          ⟨region ++ ":" ++ category, normalizeRows rows, now⟩, none) := by
      simp [refreshCategory, hrows]
    refine ⟨heq, ?_, ?_⟩
    · rw [heq]
      exact alistGet_set_self ..
    · intro k hk
      rw [heq]
      exact alistGet_set_ne _ _ _ _ hk

/-- Witness for C4 at concrete stores: a failing upstream leaves a
one-document store exactly as it was, while a succeeding upstream
replaces the pair's document wholesale and leaves the other key alone. -/
theorem refreshCategory_atomic_witness :
    refreshCategory (fun _ => none) (fun _ _ => [Except.error "down"]) 9
        "updates" "global" "latest"
        [("global:updates", ⟨"global:updates", [sampleRow], 1⟩)] =
      ([("global:updates", ⟨"global:updates", [sampleRow], 1⟩)], some "down") ∧
    refreshCategory (fun _ => none) (fun _ _ => [Except.ok [sampleRow]]) 9
        "updates" "global" "latest"
        [("cn:news", ⟨"cn:news", [], 2⟩)] =
      ([("cn:news", ⟨"cn:news", [], 2⟩),
        ("global:updates", ⟨"global:updates", [sampleRow], 9⟩)], none) ∧
    alistGet
        (refreshCategory (fun _ => none) (fun _ _ => [Except.ok [sampleRow]]) 9
          "updates" "global" "latest" [("cn:news", ⟨"cn:news", [], 2⟩)]).1
        "cn:news" =
      some ⟨"cn:news", [], 2⟩ := by
  have hfail := (refreshCategory_atomic (fun _ => none)
    (fun _ _ => [Except.error "down"]) 9 "updates" "global" "latest"
    [("global:updates", ⟨"global:updates", [sampleRow], 1⟩)]).1 "down" rfl
  have hok := (refreshCategory_atomic (fun _ => none)
    (fun _ _ => [Except.ok [sampleRow]]) 9 "updates" "global" "latest"
    [("cn:news", ⟨"cn:news", [], 2⟩)]).2 [sampleRow] rfl
  refine ⟨hfail, ?_, hok.2.2 "cn:news" (by decide)⟩
  rw [hok.1]
  decide

theorem refreshAll_fold (fetchOne : Int → Option String)
    (upstream : String → String → List (Except String (List Row))) (now : Int) :
    ∀ (l : List (String × String × String)) (store : Store) (errs : List String),
      l.foldl
          (fun acc p =>
            match refreshCategory fetchOne upstream now p.2.1 p.1 p.2.2 acc.1 with
            | (st, none) => (st, acc.2)
            | (st, some e) => (st, acc.2 ++ [p.2.1 ++ " (" ++ p.1 ++ "): " ++ e]))
          (store, errs) =
        (l.foldl
          (fun st p => (refreshCategory fetchOne upstream now p.2.1 p.1 p.2.2 st).1)
          store,
          errs ++ l.filterMap (errOfPair fetchOne upstream)) := by
  intro l
  induction l with
  | nil => intro store errs; simp
  | cons p l ih =>
    intro store errs
    rcases hfc : fetchCategoryRows fetchOne p.2.2 (upstream p.1 p.2.2) with e | rows
    · have hrc : refreshCategory fetchOne upstream now p.2.1 p.1 p.2.2 store =
          (store, some e) := by
        simp [refreshCategory, hfc]
      have herr : errOfPair fetchOne upstream p =
          some (p.2.1 ++ " (" ++ p.1 ++ "): " ++ e) := by
        simp [errOfPair, hfc]
      simp only [List.foldl_cons, hrc, ih, List.filterMap_cons, herr]
      simp
    · have hrc : refreshCategory fetchOne upstream now p.2.1 p.1 p.2.2 store =
          (alistSet store (p.1 ++ ":" ++ p.2.1)
            ⟨p.1 ++ ":" ++ p.2.1, normalizeRows rows, now⟩, none) := by
        simp [refreshCategory, hfc]
      have herr : errOfPair fetchOne upstream p = none := by
        simp [errOfPair, hfc]
      simp only [List.foldl_cons, hrc, ih, List.filterMap_cons, herr]

/-- C9: one sync cycle attempts every region and category combination
exactly once — the recorded error list runs over the whole pair list, so
a failing pair never prevents later pairs from being refreshed — the
final store is the fold of the per-pair refreshes over all pairs, and the
aggregate is empty exactly when every pair succeeded. -/
theorem refreshAll_isolates (fetchOne : Int → Option String)
    (upstream : String → String → List (Except String (List Row))) (now : Int)
    (store : Store) :
    (refreshAll fetchOne upstream now store).2 =
      allPairs.filterMap (errOfPair fetchOne upstream) ∧
    ((refreshAll fetchOne upstream now store).2 = [] ↔
      ∀ p ∈ allPairs, errOfPair fetchOne upstream p = none) ∧
    (refreshAll fetchOne upstream now store).1 =
      allPairs.foldl
        (fun st p => (refreshCategory fetchOne upstream now p.2.1 p.1 p.2.2 st).1)
        store := by
  have h := refreshAll_fold fetchOne upstream now allPairs store []
  refine ⟨?_, ?_, ?_⟩
  · rw [refreshAll, h]
    simp
  · rw [refreshAll, h]
    simp [List.filterMap_eq_nil_iff]
  · rw [refreshAll, h]

/-- An upstream where exactly the (jp, notices) pair is down and every
other pair returns a single short page with no rows. -/
def oneDownUpstream (region newsType : String) :
    List (Except String (List Row)) :=
  if region = "jp" ∧ newsType = "notice" then [Except.error "down"]
  else [Except.ok []]

/-- Witness for C9: with only (jp, notices) failing, the cycle records
exactly that pair's wrapped error, and the store still receives fresh
documents for the other pairs of the same cycle. -/
theorem refreshAll_isolates_witness :
    (refreshAll (fun _ => none) oneDownUpstream 5 []).2 =
      ["notices (jp): down"] ∧
    alistGet (refreshAll (fun _ => none) oneDownUpstream 5 []).1 "jp:updates" =
      some ⟨"jp:updates", [], 5⟩ ∧
    alistGet (refreshAll (fun _ => none) oneDownUpstream 5 []).1 "cn:events" =
      some ⟨"cn:events", [], 5⟩ ∧
    alistGet (refreshAll (fun _ => none) oneDownUpstream 5 []).1 "jp:notices" =
      none := by
  have h := refreshAll_isolates (fun _ => none) oneDownUpstream 5 []
  refine ⟨?_, by decide, by decide, by decide⟩
  rw [h.1]
  decide

end SSNews
